import Mathlib

/-!
Shallow embedding of `ping-tool.py`, a script that parses textual ICMP echo
("ping") logs and renders a markdown summary report.

Modelling conventions:
* A file content is its list of lines, each a `List Char`, exactly as
  the Python `readlines()` yields them (so a line normally keeps its trailing
  newline character; nothing below depends on that).
* Python floats parsed from decimal literals are modelled as exact rationals
  (`Rat`); the arithmetic in the script (sum, min, max, division) is the same.
* The regexes of the script (`PING\s+(\S+)(?:\s+\((\S+)\))?`,
  `^\[(\d+\.\d+)\]`, `icmp_seq=(\d+)`, `time=(\d+\.?\d*)`) are embedded as
  character-list scanners implementing `re.search` semantics for these
  patterns: leftmost match position, greedy quantifiers with the (only)
  backtracking step these particular patterns can need.
* The whitespace class `\s` is modelled over the ASCII whitespace characters,
  which is what appears in ping logs.
* The filesystem is a function `String → Option (List (List Char))`
  (`none` = the `open` raises, i.e. the file is unreadable); `glob` results
  are inputs of the model since they come from the OS.
-/

namespace PingTool

/-- Whitespace test for the regex class `\s` (ASCII range, as found in logs). -/
def isSpaceChar (c : Char) : Bool :=
  c == ' ' || c == '\t' || c == '\n' || c == '\r' || c == '\x0b' || c == '\x0c'

/-- Blank-line test, modelling Python `not line.strip()`. -/
def isBlank (l : List Char) : Bool := l.all isSpaceChar

/-- Pattern `pat` matches at the head of `s` (literal character sequence). -/
def leadsWith : List Char → List Char → Bool
  | [], _ => true
  | _ :: _, [] => false
  | p :: ps, c :: cs => p == c && leadsWith ps cs

/-- Substring occurrence test, modelling Python `pat in s`. -/
def containsSub (pat : List Char) : List Char → Bool
  | [] => leadsWith pat []
  | c :: cs => leadsWith pat (c :: cs) || containsSub pat cs

/-- Numeric value of a run of decimal digit characters. -/
def digitsToNat (ds : List Char) : Nat :=
  ds.foldl (fun n c => 10 * n + (c.toNat - '0'.toNat)) 0

/-- Rational value of `<ds>.<fs>`, the decimal literal captured by the
`time=`/timestamp regexes (`fs = []` for a literal without fractional part). -/
def ratOfParts (ds fs : List Char) : Rat :=
  (digitsToNat ds : Rat) + (digitsToNat fs : Rat) / (10 : Rat) ^ fs.length

/-- Literal pattern of the raw-probe substring membership test of the script
(the Python `in` test on `icmp_seq=`). -/
def icmpPat : List Char := "icmp_seq=".data

/-- Search for `icmp_seq=(\d+)`: at each position from the left, match the
literal `icmp_seq=` followed by a maximal nonempty digit run; the first
position where this succeeds yields the captured sequence number. -/
def seqSearch : List Char → Option Nat
  | [] => none
  | c :: cs =>
    if leadsWith icmpPat (c :: cs) then
      let ds := ((c :: cs).drop icmpPat.length).takeWhile Char.isDigit
      if ds.isEmpty then seqSearch cs else some (digitsToNat ds)
    else seqSearch cs

/-- Search for `time=(\d+\.?\d*)`: at each position from the left, match the
literal `time=`, then a maximal nonempty digit run, then an optional `.`
followed by a maximal (possibly empty) digit run. -/
def timeSearch : List Char → Option Rat
  | [] => none
  | c :: cs =>
    if leadsWith "time=".data (c :: cs) then
      let rest := (c :: cs).drop 5
      let ds := rest.takeWhile Char.isDigit
      if ds.isEmpty then timeSearch cs
      else
        match rest.dropWhile Char.isDigit with
        | '.' :: rest2 => some (ratOfParts ds (rest2.takeWhile Char.isDigit))
        | _ => some (ratOfParts ds [])
    else timeSearch cs

/-- Anchored match of `^\[(\d+\.\d+)\]` returning the captured timestamp. -/
def tsMatch (l : List Char) : Option Rat :=
  match l with
  | '[' :: rest =>
    let ds := rest.takeWhile Char.isDigit
    if ds.isEmpty then none
    else
      match rest.dropWhile Char.isDigit with
      | '.' :: rest2 =>
        let fs := rest2.takeWhile Char.isDigit
        if fs.isEmpty then none
        else
          match rest2.dropWhile Char.isDigit with
          | ']' :: _ => some (ratOfParts ds fs)
          | _ => none
      | _ => none
  | _ => none

/-- Longest proper initial segment of `run` whose following character in `run`
is `)`. This is the backtracking step of `\((\S+)\)`: the inner `\S+` first
grabs the whole nonspace run and then gives characters back until a `)` can
close the group; `none` when `run` has no closing parenthesis to give back. -/
def beforeLastClose (run : List Char) : Option (List Char) :=
  match run.reverse.dropWhile (fun c => !(c == ')')) with
  | [] => none
  | _ :: before => some before.reverse

/-- Match of `PING\s+(\S+)(?:\s+\((\S+)\))?` anchored at the head of `s`:
group 1 and, when the optional parenthesized group matches, group 2. -/
def headerAt (s : List Char) : Option (List Char × Option (List Char)) :=
  if leadsWith "PING".data s then
    let r1 := s.drop 4
    let ws := r1.takeWhile isSpaceChar
    if ws.isEmpty then none
    else
      let r2 := r1.dropWhile isSpaceChar
      let t1 := r2.takeWhile (fun c => !isSpaceChar c)
      if t1.isEmpty then none
      else
        let r3 := r2.dropWhile (fun c => !isSpaceChar c)
        let ws2 := r3.takeWhile isSpaceChar
        if ws2.isEmpty then some (t1, none)
        else
          match r3.dropWhile isSpaceChar with
          | '(' :: r5 =>
            match beforeLastClose (r5.takeWhile (fun c => !isSpaceChar c)) with
            | some grp => if grp.isEmpty then some (t1, none) else some (t1, some grp)
            | none => some (t1, none)
          | _ => some (t1, none)
  else none

/-- Search with `re.search` semantics for the header pattern: try `headerAt` at every position from
the left, returning the first success. -/
def headerSearch : List Char → Option (List Char × Option (List Char))
  | [] => none
  | c :: cs =>
    match headerAt (c :: cs) with
    | some r => some r
    | none => headerSearch cs

/-- Python `str.strip` with both parenthesis characters: remove leading and
trailing parentheses. -/
def stripParens (s : List Char) : List Char :=
  ((s.dropWhile (fun c => c == '(' || c == ')')).reverse.dropWhile
    (fun c => c == '(' || c == ')')).reverse

/-- Target identity of one analyzed file (`target_info` in the script). -/
structure ProbeTarget where
  ip : String
  hostname : Option String
deriving Repr, DecidableEq

/-- Extraction of `target_info` from the (optional) first line. -/
def parseTarget (lines : List (List Char)) : ProbeTarget :=
  match lines with
  | [] => { ip := "Unknown", hostname := none }
  | l :: _ =>
    match headerSearch l with
    | none => { ip := "Unknown", hostname := none }
    | some (t1, none) => { ip := ⟨t1⟩, hostname := none }
    | some (t1, some t2) => { ip := ⟨stripParens t2⟩, hostname := some ⟨t1⟩ }

/-- Accumulator of the per-line extraction loop of `analyze_ping_file`. -/
structure ScanState where
  ping_times : List Rat
  timestamps : List Rat
  sequences : List Nat
  total_pings : Nat
deriving Repr, DecidableEq

/-- Body of the `for line in lines` loop of `analyze_ping_file`. -/
def scanLine (hts : Bool) (st : ScanState) (line : List Char) : ScanState :=
  if isBlank line then st
  else
    let t := if containsSub icmpPat line then st.total_pings + 1 else st.total_pings
    let ts :=
      if hts then
        match tsMatch line with
        | some x => st.timestamps ++ [x]
        | none => st.timestamps
      else st.timestamps
    match seqSearch line, timeSearch line with
    | some sq, some tm =>
      { ping_times := st.ping_times ++ [tm], timestamps := ts,
        sequences := st.sequences ++ [sq], total_pings := t }
    | _, _ => { st with timestamps := ts, total_pings := t }

/-- Summary metrics of one analyzed file (`stats` in the script). -/
structure Stats where
  min : Rat
  max : Rat
  avg : Rat
  mdev : Rat
  total_pings : Nat
  packet_loss : Rat
deriving Repr, DecidableEq

/-- Python `min(l) if l else 0` (`min` of a nonempty list folds pairwise). -/
def minOr0 : List Rat → Rat
  | [] => 0
  | t :: ts => ts.foldl min t

/-- Python `max(l) if l else 0`. -/
def maxOr0 : List Rat → Rat
  | [] => 0
  | t :: ts => ts.foldl max t

/-- Python `sum(l) / len(l) if l else 0`. -/
def avgOr0 (l : List Rat) : Rat :=
  if l.isEmpty then 0 else l.sum / (l.length : Rat)

/-- Result of analyzing one readable file. The `time_range` of the script converts
the two epoch values with `datetime.fromtimestamp` for display; that
conversion depends on the host timezone, so the model keeps the raw epoch
rationals (the pair is still (earliest, latest)). -/
structure FileAnalysis where
  target : ProbeTarget
  stats : Stats
  time_range : Option (Rat × Rat)
  has_timestamps : Bool
deriving Repr, DecidableEq

/-- Timestamp-format detection `has_timestamps`: some non-blank line matches
the anchored timestamp pattern. -/
def htsOf (lines : List (List Char)) : Bool :=
  lines.any (fun l => !isBlank l && (tsMatch l).isSome)

/-- Result of the per-line extraction loop of `analyze_ping_file`. -/
def scanOf (lines : List (List Char)) : ScanState :=
  lines.foldl (scanLine (htsOf lines)) ⟨[], [], [], 0⟩

/-- Round-trip times of the parsed samples (`ping_times` in the script). -/
def sampleTimes (lines : List (List Char)) : List Rat :=
  (scanOf lines).ping_times

/-- Analysis `analyze_ping_file` of the lines of a readable file: target extraction,
timestamp-format detection, the per-line extraction loop, and the statistics
computed from its results. -/
def analyze_ping_file (lines : List (List Char)) : FileAnalysis :=
  let target := parseTarget lines
  let has_timestamps := htsOf lines
  let st := scanOf lines
  let pt := st.ping_times
  let stats : Stats :=
    { min := minOr0 pt, max := maxOr0 pt, avg := avgOr0 pt,
      mdev := if pt.isEmpty then 0
              else ((pt.map (fun t => |t - avgOr0 pt|)).sum) / (pt.length : Rat),
      total_pings := st.total_pings,
      packet_loss :=
        if 0 < st.total_pings then
          ((st.total_pings : Rat) - (pt.length : Rat)) / (st.total_pings : Rat) * 100
        else 0 }
  { target := target, stats := stats,
    time_range :=
      match st.timestamps with
      | [] => none
      | t :: ts => some (ts.foldl min t, ts.foldl max t),
    has_timestamps := has_timestamps }

/-- Contribution of one line to the raw probe counter: the loop skips blank
lines and counts the rest when they contain `icmp_seq=`. -/
def rawHit (l : List Char) : Bool := !isBlank l && containsSub icmpPat l

/-- Contribution of one line to `ping_times`: the parsed latency when the line
is non-blank and exposes both a sequence number and a time value. -/
def sampleTime (l : List Char) : Option Rat :=
  if isBlank l then none
  else
    match seqSearch l, timeSearch l with
    | some _, some t => some t
    | _, _ => none

/-- Contribution of one line to the timestamp list (when the file-level
timestamp flag is active). -/
def tsOf (l : List Char) : Option Rat := if isBlank l then none else tsMatch l

/-- Raw probe counter described by the spec: the number of lines containing
the substring `icmp_seq=`. -/
def rawProbes (lines : List (List Char)) : Nat :=
  lines.countP (fun l => containsSub icmpPat l)

/-- Sample count described by the spec: the number of lines from which both a
sequence number and a time value were parsed. -/
def sampleLines (lines : List (List Char)) : Nat :=
  lines.countP (fun l => (seqSearch l).isSome && (timeSearch l).isSome)

/-- Timestamps collected by the loop when the timestamp flag is active. -/
def collectedTs (lines : List (List Char)) : List Rat :=
  lines.filterMap tsOf

/-- Filesystem abstraction: the lines of each readable file (`none` means
`open` raises for that name). -/
abbrev Fs := String → Option (List (List Char))

/-- Analysis including the `open`/`readlines` step of `analyze_ping_file`: an unreadable
file reports an error and yields `None`. -/
def analyzeFile (fs : Fs) (name : String) : Option FileAnalysis :=
  (fs name).map analyze_ping_file

/-- Header sniff `is_ping_file`: join the first (up to) 10 lines, lowercase,
and test for the substring `ping`; unreadable files are rejected. -/
def is_ping_file (fs : Fs) (name : String) : Bool :=
  match fs name with
  | none => false
  | some lines => containsSub "ping".data (((lines.take 10).flatten).map Char.toLower)

/-- Python `str.endswith(suf)`. -/
def endsIn (suf s : List Char) : Bool := leadsWith suf.reverse s.reverse

/-- Warning for a directory argument (quote characters of the message in the script
elided). -/
def dirWarning (name : String) : String :=
  "Warning: No ping files found in directory " ++ name

/-- Warning for a glob pattern with zero matches (quote characters elided). -/
def patWarning (name : String) : String :=
  "Warning: No files found matching pattern " ++ name

/-- Fatal diagnostic when discovery produced no candidates. -/
def noFilesMsg : String := "Error: No ping files found to analyze."

/-- Fatal diagnostic when no candidate yielded a usable analysis. -/
def noDataMsg : String := "No valid ping data found in input files."

/-- Per-file read error reported by `analyze_ping_file` (underlying OS message
elided). -/
def readErrMsg (name : String) : String := "Error reading file " ++ name

/-- One command-line argument together with what the OS glob returns for it:
a directory carries the recursive `*.txt` and `*.log` matches under it, a
non-directory argument carries the matches of itself as a glob pattern. -/
inductive CliArg where
  | dir (name : String) (txtMatches logMatches : List String)
  | globPat (name : String) (found : List String)
deriving Repr, DecidableEq

/-- Accumulator of the argument-processing loop of `main`. -/
structure DiscoverySt where
  files : List String
  warnings : List String
deriving Repr, DecidableEq

/-- Candidate files one argument contributes (the sniff-filtered matches). -/
def argAccepted (fs : Fs) : CliArg → List String
  | .dir _ txt log => txt.filter (is_ping_file fs) ++ log.filter (is_ping_file fs)
  | .globPat _ found =>
    if found.isEmpty then []
    else found.filter (fun f =>
      (endsIn ".txt".data f.data || endsIn ".log".data f.data) && is_ping_file fs f)

/-- Body of the `for arg in sys.argv[1:]` loop of `main`. Note the directory
branch tests `if not files` on the CUMULATIVE list, after extending it. -/
def processArg (fs : Fs) (st : DiscoverySt) : CliArg → DiscoverySt
  | .dir name txt log =>
    let files := st.files ++ txt.filter (is_ping_file fs) ++ log.filter (is_ping_file fs)
    if files.isEmpty then { files := files, warnings := st.warnings ++ [dirWarning name] }
    else { files := files, warnings := st.warnings }
  | .globPat name found =>
    if found.isEmpty then { st with warnings := st.warnings ++ [patWarning name] }
    else { st with files := st.files ++ found.filter (fun f =>
      (endsIn ".txt".data f.data || endsIn ".log".data f.data) && is_ping_file fs f) }

/-- File discovery of `main`: with no arguments, sniff-filter the `*.txt` and
`*.log` matches of the current directory (given as `defTxt`/`defLog`);
otherwise fold the argument loop. -/
def discover (fs : Fs) (argv : List CliArg) (defTxt defLog : List String) : DiscoverySt :=
  if argv.isEmpty then
    { files := defTxt.filter (is_ping_file fs) ++ defLog.filter (is_ping_file fs),
      warnings := [] }
  else argv.foldl (processArg fs) { files := [], warnings := [] }

/-- Python 3.7+ dict insertion `d[k] = v`: overwriting an existing key keeps
its position, a new key is appended. -/
def dictInsert (d : List (String × FileAnalysis)) (k : String) (v : FileAnalysis) :
    List (String × FileAnalysis) :=
  if d.any (fun p => p.1 == k) then d.map (fun p => if p.1 == k then (k, v) else p)
  else d ++ [(k, v)]

/-- Body of the collection loop of `main`: store a successful analysis under
its filename, skip a failed one. -/
def collectStep (fs : Fs) (d : List (String × FileAnalysis)) (f : String) :
    List (String × FileAnalysis) :=
  match analyzeFile fs f with
  | some r => dictInsert d f r
  | none => d

/-- Collection loop of `main`: `results = {}; for file in files: ...` keyed by
filename, keeping only files whose analysis succeeded. -/
def collectResults (fs : Fs) (files : List String) : List (String × FileAnalysis) :=
  files.foldl (collectStep fs) []

/-- Read errors emitted on the diagnostic stream during the collection loop. -/
def readErrors (fs : Fs) (files : List String) : List String :=
  (files.filter (fun f => (fs f).isNone)).map readErrMsg

/-- Python `os.path.basename`: the part after the last `/`. -/
def baseName (s : String) : List Char :=
  (s.data.reverse.takeWhile (fun c => !(c == '/'))).reverse

/-- Model of the `%.1f`-style one-decimal rendering of the report table. Python
formats the binary double with round-half-even; over exact rationals the
model rounds half up, which agrees on all inputs whose scaled value is not an
exact half. -/
def fmt1 (q : Rat) : String :=
  let m : Int := (q * 10 + 1 / 2).floor
  (if m < 0 then "-" else "") ++ toString (m.natAbs / 10) ++ "." ++ toString (m.natAbs % 10)

/-- Display of one epoch timestamp. The script renders
`datetime.fromtimestamp(t).strftime(...)`, which depends on the host
timezone; the model displays the raw epoch rational. -/
def fmtTs (t : Rat) : List Char := (toString t).data

/-- Markdown lines of one file section of `generate_markdown`. -/
def mdSection (filename : String) (data : FileAnalysis) : List (List Char) :=
  ["## Ping Analysis: ".data ++ baseName filename, []]
  ++ [match data.target.hostname with
      | some h => "**Host:** ".data ++ h.data ++ " (".data ++ data.target.ip.data ++ ")".data
      | none => "**Host:** ".data ++ data.target.ip.data]
  ++ [[]]
  ++ (match data.time_range with
      | some (s, e) => ["**Time Range:** ".data ++ fmtTs s ++ " to ".data ++ fmtTs e, []]
      | none => [])
  ++ ["| Metric | Value |".data,
      "|--------|-------|".data,
      "| Minimum Latency | ".data ++ (fmt1 data.stats.min).data ++ " ms |".data,
      "| Average Latency | ".data ++ (fmt1 data.stats.avg).data ++ " ms |".data,
      "| Maximum Latency | ".data ++ (fmt1 data.stats.max).data ++ " ms |".data,
      "| Mean Deviation | ".data ++ (fmt1 data.stats.mdev).data ++ " ms |".data,
      "| Packet Loss | ".data ++ (fmt1 data.stats.packet_loss).data ++ "% |".data,
      "| Total Pings | ".data ++ (toString data.stats.total_pings).data ++ " |".data,
      [], []]

/-- Markdown lines of `generate_markdown` over the collected results (every
stored value is a produced analysis, so the `if not data: continue` guard of
the script never skips). -/
def mdRows (results : List (String × FileAnalysis)) : List (List Char) :=
  (results.map (fun p => mdSection p.1 p.2)).flatten

/-- Full report text: the markdown lines joined with newlines. -/
def generate_markdown (results : List (String × FileAnalysis)) : String :=
  ⟨List.intercalate ['\n'] (mdRows results)⟩

/-- Number of per-file sections in a rendered line list: the lines that start
with the heading marker `## `. -/
def sectionCount (md : List (List Char)) : Nat :=
  md.countP (fun l => leadsWith "## ".data l)

/-- Observable outcome of one run of the script. -/
structure RunOutput where
  exitCode : Nat
  stdout : Option String
  stderrs : List String
deriving Repr, DecidableEq

/-- The orchestrator `main`. The script opens each candidate twice — once in
`is_ping_file` during discovery and once in `analyze_ping_file` — so the model
takes one filesystem snapshot per pass (`fsDiscover`, `fsAnalyze`); they are
equal whenever no file changes between the passes. -/
def main (fsDiscover fsAnalyze : Fs) (argv : List CliArg) (defTxt defLog : List String) :
    RunOutput :=
  let d := discover fsDiscover argv defTxt defLog
  if d.files.isEmpty then
    { exitCode := 1, stdout := none, stderrs := d.warnings ++ [noFilesMsg] }
  else
    let results := collectResults fsAnalyze d.files
    if results.isEmpty then
      { exitCode := 1, stdout := none,
        stderrs := d.warnings ++ readErrors fsAnalyze d.files ++ [noDataMsg] }
    else
      { exitCode := 0, stdout := some (generate_markdown results),
        stderrs := d.warnings ++ readErrors fsAnalyze d.files }

/-- Two-line input of the spec example. -/
def exampleLines : List (List Char) :=
  ["PING example.com (93.184.216.34) 56 data bytes".data,
   "64 bytes from 93.184.216.34: icmp_seq=1 ttl=56 time=11.2 ms".data]

/-- Input with one successful probe and one timed-out probe (a sequence
marker without a time value). -/
def exLossLines : List (List Char) :=
  ["PING h (1.2.3.4) 56 data bytes\n".data,
   "64 bytes from 1.2.3.4: icmp_seq=1 ttl=56 time=2.0 ms\n".data,
   "icmp_seq=2 timeout\n".data]

/-- Input whose probe lines carry bracketed epoch timestamps. -/
def exTsLines : List (List Char) :=
  ["PING h (1.2.3.4) 56 data bytes\n".data,
   "[1700000000.5] 64 bytes from 1.2.3.4: icmp_seq=1 ttl=56 time=2.5 ms\n".data,
   "[1700000003.5] 64 bytes from 1.2.3.4: icmp_seq=2 ttl=56 time=4.5 ms\n".data]

/-- Concrete one-file filesystem used by the closed instances below. -/
def exFs : Fs := fun n => if n = "a.txt" then some exLossLines else none

/-- Filesystem on which every `open` fails. -/
def emptyFs : Fs := fun _ => none

/-! ### Characterization of the per-line extraction loop -/

theorem length_filterMap_eq_countP {α β : Type} (f : α → Option β) :
    ∀ l : List α, (l.filterMap f).length = l.countP (fun x => (f x).isSome)
  | [] => rfl
  | a :: l => by
    rcases h : f a with _ | b <;>
      simp [List.filterMap_cons, List.countP_cons, h, length_filterMap_eq_countP f l]

theorem leadsWith_append (p s : List Char) : leadsWith p (p ++ s) = true := by
  induction p with
  | nil => rfl
  | cons c cs ih => simp [leadsWith, ih]

theorem leadsWith_head {p : Char} {ps s : List Char} (h : leadsWith (p :: ps) s = true) :
    ∃ cs, s = p :: cs := by
  cases s with
  | nil => simp [leadsWith] at h
  | cons c cs =>
    simp only [leadsWith, Bool.and_eq_true, beq_iff_eq] at h
    exact ⟨cs, by rw [h.1]⟩

theorem containsSub_not_blank {p : Char} {ps : List Char} (hp : isSpaceChar p = false) :
    ∀ {l : List Char}, containsSub (p :: ps) l = true → isBlank l = false := by
  intro l
  induction l with
  | nil => intro h; simp [containsSub, leadsWith] at h
  | cons c cs ih =>
    intro h
    simp only [containsSub, Bool.or_eq_true] at h
    rcases h with h | h
    · obtain ⟨cs2, hcs⟩ := leadsWith_head h
      cases hcs
      simp [isBlank, hp]
    · have hcs := ih h
      have e : isBlank (c :: cs) = (isSpaceChar c && isBlank cs) := rfl
      rw [e, hcs, Bool.and_false]

theorem seqSearch_contains :
    ∀ {l : List Char}, (seqSearch l).isSome = true → containsSub icmpPat l = true := by
  intro l
  induction l with
  | nil => intro h; simp [seqSearch] at h
  | cons c cs ih =>
    intro h
    by_cases h1 : leadsWith icmpPat (c :: cs)
    · simp [containsSub, h1]
    · simp only [seqSearch, h1, if_false] at h
      simp [containsSub, ih h]

theorem blank_no_seq {l : List Char} (hb : isBlank l = true) : seqSearch l = none := by
  cases h : seqSearch l with
  | none => rfl
  | some v =>
    have hc : containsSub icmpPat l = true := seqSearch_contains (by simp [h])
    have e : icmpPat = 'i' :: "cmp_seq=".data := rfl
    rw [e] at hc
    rw [containsSub_not_blank (by decide) hc] at hb
    cases hb

theorem sampleTime_isSome (l : List Char) :
    (sampleTime l).isSome = ((seqSearch l).isSome && (timeSearch l).isSome) := by
  by_cases hb : isBlank l
  · simp [sampleTime, hb, blank_no_seq hb]
  · simp only [sampleTime, hb, Bool.false_eq_true, if_false]
    rcases hs : seqSearch l with _ | sq <;> rcases ht : timeSearch l with _ | tm <;> simp

theorem rawHit_eq (l : List Char) : rawHit l = containsSub icmpPat l := by
  by_cases h : containsSub icmpPat l = true
  · have e : icmpPat = 'i' :: "cmp_seq=".data := rfl
    rw [e] at h
    simp [rawHit, h, containsSub_not_blank (by decide) h, e]
  · simp [rawHit, Bool.eq_false_iff.mpr h]

theorem scanLine_total (hts : Bool) (st : ScanState) (l : List Char) :
    (scanLine hts st l).total_pings = st.total_pings + (if rawHit l then 1 else 0) := by
  by_cases hb : isBlank l
  · simp [scanLine, hb, rawHit]
  · simp only [scanLine, hb, Bool.false_eq_true, if_false, rawHit, Bool.not_eq_true']
    rcases hs : seqSearch l with _ | sq <;> rcases ht : timeSearch l with _ | tm <;>
      by_cases hc : containsSub icmpPat l <;>
        simp [hs, ht, hc, hb, Bool.eq_false_iff.mpr hb]

theorem scanLine_times (hts : Bool) (st : ScanState) (l : List Char) :
    (scanLine hts st l).ping_times = st.ping_times ++ (sampleTime l).toList := by
  by_cases hb : isBlank l
  · simp [scanLine, hb, sampleTime]
  · simp only [scanLine, sampleTime, hb, Bool.false_eq_true, if_false]
    rcases hs : seqSearch l with _ | sq <;> rcases ht : timeSearch l with _ | tm <;>
      simp [hs, ht]

theorem scanLine_ts (hts : Bool) (st : ScanState) (l : List Char) :
    (scanLine hts st l).timestamps =
      st.timestamps ++ (if hts then (tsOf l).toList else []) := by
  by_cases hb : isBlank l
  · simp [scanLine, hb, tsOf]
  · simp only [scanLine, tsOf, hb, Bool.false_eq_true, if_false]
    cases hts <;> rcases hm : tsMatch l with _ | x <;>
      rcases hs : seqSearch l with _ | sq <;> rcases ht : timeSearch l with _ | tm <;>
        simp [hm, hs, ht]

theorem foldl_scan_total (hts : Bool) :
    ∀ (lines : List (List Char)) (init : ScanState),
      (lines.foldl (scanLine hts) init).total_pings =
        init.total_pings + lines.countP rawHit
  | [], init => by simp
  | l :: ls, init => by
    rw [List.foldl_cons, foldl_scan_total hts ls, scanLine_total, List.countP_cons]
    ring

theorem foldl_scan_times (hts : Bool) :
    ∀ (lines : List (List Char)) (init : ScanState),
      (lines.foldl (scanLine hts) init).ping_times =
        init.ping_times ++ lines.filterMap sampleTime
  | [], init => by simp
  | l :: ls, init => by
    rw [List.foldl_cons, foldl_scan_times hts ls, scanLine_times, List.filterMap_cons]
    rcases sampleTime l with _ | t <;> simp

theorem foldl_scan_ts (hts : Bool) :
    ∀ (lines : List (List Char)) (init : ScanState),
      (lines.foldl (scanLine hts) init).timestamps =
        init.timestamps ++ (if hts then lines.filterMap tsOf else [])
  | [], init => by cases hts <;> simp
  | l :: ls, init => by
    rw [List.foldl_cons, foldl_scan_ts hts ls, scanLine_ts, List.filterMap_cons]
    cases hts <;> rcases tsOf l with _ | t <;> simp

theorem scanOf_total (lines : List (List Char)) :
    (scanOf lines).total_pings = rawProbes lines := by
  rw [scanOf, foldl_scan_total, rawProbes]
  have : rawHit = fun l => containsSub icmpPat l := funext rawHit_eq
  rw [this]
  simp

theorem sampleTimes_eq (lines : List (List Char)) :
    sampleTimes lines = lines.filterMap sampleTime := by
  rw [sampleTimes, scanOf, foldl_scan_times]
  rfl

theorem sampleTimes_length (lines : List (List Char)) :
    (sampleTimes lines).length = sampleLines lines := by
  rw [sampleTimes_eq, length_filterMap_eq_countP, sampleLines]
  have : (fun x => (sampleTime x).isSome)
      = fun l => ((seqSearch l).isSome && (timeSearch l).isSome) :=
    funext sampleTime_isSome
  rw [this]

theorem scanOf_ts (lines : List (List Char)) :
    (scanOf lines).timestamps = if htsOf lines then collectedTs lines else [] := by
  rw [scanOf, foldl_scan_ts, collectedTs]
  rfl

/-! ### Projections of `analyze_ping_file` and the statistics lemmas -/

theorem analyze_target (lines : List (List Char)) :
    (analyze_ping_file lines).target = parseTarget lines := rfl

theorem analyze_hts (lines : List (List Char)) :
    (analyze_ping_file lines).has_timestamps = htsOf lines := rfl

theorem analyze_min (lines : List (List Char)) :
    (analyze_ping_file lines).stats.min = minOr0 (sampleTimes lines) := rfl

theorem analyze_max (lines : List (List Char)) :
    (analyze_ping_file lines).stats.max = maxOr0 (sampleTimes lines) := rfl

theorem analyze_avg (lines : List (List Char)) :
    (analyze_ping_file lines).stats.avg = avgOr0 (sampleTimes lines) := rfl

theorem analyze_mdev (lines : List (List Char)) :
    (analyze_ping_file lines).stats.mdev =
      (if (sampleTimes lines).isEmpty then 0
       else ((sampleTimes lines).map
              (fun t => |t - avgOr0 (sampleTimes lines)|)).sum
            / ((sampleTimes lines).length : Rat)) := rfl

theorem analyze_total (lines : List (List Char)) :
    (analyze_ping_file lines).stats.total_pings = rawProbes lines := by
  rw [show (analyze_ping_file lines).stats.total_pings = (scanOf lines).total_pings from rfl,
    scanOf_total]

theorem analyze_loss (lines : List (List Char)) :
    (analyze_ping_file lines).stats.packet_loss =
      (if 0 < rawProbes lines
       then ((rawProbes lines : Rat) - (sampleLines lines : Rat))
              / (rawProbes lines : Rat) * 100
       else 0) := by
  rw [show (analyze_ping_file lines).stats.packet_loss =
      (if 0 < (scanOf lines).total_pings
       then (((scanOf lines).total_pings : Rat) - ((sampleTimes lines).length : Rat))
              / ((scanOf lines).total_pings : Rat) * 100
       else 0) from rfl,
    scanOf_total, sampleTimes_length]

theorem analyze_time_range (lines : List (List Char)) :
    (analyze_ping_file lines).time_range =
      (match (scanOf lines).timestamps with
       | [] => none
       | t :: ts => some (ts.foldl min t, ts.foldl max t)) := rfl

/-! ### Folded minima and maxima -/

theorem foldl_min_mem : ∀ (ts : List Rat) (t : Rat), ts.foldl min t ∈ t :: ts
  | [], t => by simp
  | a :: ts, t => by
    rcases List.mem_cons.mp (foldl_min_mem ts (min t a)) with h | h
    · rw [List.foldl_cons, h]
      rcases min_choice t a with h2 | h2 <;> rw [h2] <;> simp
    · simp [List.foldl_cons, List.mem_cons.mpr (Or.inr h)]

theorem foldl_min_le : ∀ (ts : List Rat) (t x : Rat), x ∈ t :: ts → ts.foldl min t ≤ x
  | [], t, x, hx => by simp at hx; simp [hx]
  | a :: ts, t, x, hx => by
    rw [List.foldl_cons]
    have hhead := foldl_min_le ts (min t a) (min t a) (List.mem_cons_self _ _)
    rcases List.mem_cons.mp hx with h | h
    · rw [h]; exact le_trans hhead (min_le_left t a)
    · rcases List.mem_cons.mp h with h2 | h2
      · rw [h2]; exact le_trans hhead (min_le_right t a)
      · exact foldl_min_le ts (min t a) x (List.mem_cons_of_mem _ h2)

theorem foldl_max_mem : ∀ (ts : List Rat) (t : Rat), ts.foldl max t ∈ t :: ts
  | [], t => by simp
  | a :: ts, t => by
    rcases List.mem_cons.mp (foldl_max_mem ts (max t a)) with h | h
    · rw [List.foldl_cons, h]
      rcases max_choice t a with h2 | h2 <;> rw [h2] <;> simp
    · simp [List.foldl_cons, List.mem_cons.mpr (Or.inr h)]

theorem foldl_max_ge : ∀ (ts : List Rat) (t x : Rat), x ∈ t :: ts → x ≤ ts.foldl max t
  | [], t, x, hx => by simp at hx; simp [hx]
  | a :: ts, t, x, hx => by
    rw [List.foldl_cons]
    have hhead := foldl_max_ge ts (max t a) (max t a) (List.mem_cons_self _ _)
    rcases List.mem_cons.mp hx with h | h
    · rw [h]; exact le_trans (le_max_left t a) hhead
    · rcases List.mem_cons.mp h with h2 | h2
      · rw [h2]; exact le_trans (le_max_right t a) hhead
      · exact foldl_max_ge ts (max t a) x (List.mem_cons_of_mem _ h2)

theorem minOr0_mem {pt : List Rat} (h : pt ≠ []) : minOr0 pt ∈ pt := by
  cases pt with
  | nil => exact absurd rfl h
  | cons t ts => exact foldl_min_mem ts t

theorem minOr0_le {pt : List Rat} (x : Rat) (hx : x ∈ pt) : minOr0 pt ≤ x := by
  cases pt with
  | nil => simp at hx
  | cons t ts => exact foldl_min_le ts t x hx

theorem maxOr0_mem {pt : List Rat} (h : pt ≠ []) : maxOr0 pt ∈ pt := by
  cases pt with
  | nil => exact absurd rfl h
  | cons t ts => exact foldl_max_mem ts t

theorem maxOr0_ge {pt : List Rat} (x : Rat) (hx : x ∈ pt) : x ≤ maxOr0 pt := by
  cases pt with
  | nil => simp at hx
  | cons t ts => exact foldl_max_ge ts t x hx

theorem min_le_avgOr0 {pt : List Rat} (h : pt ≠ []) : minOr0 pt ≤ avgOr0 pt := by
  have hlen : 0 < pt.length := List.length_pos.mpr h
  have hlenq : (0 : Rat) < (pt.length : Rat) := by exact_mod_cast hlen
  rw [avgOr0, if_neg (by simp [h])]
  rw [le_div_iff₀ hlenq, mul_comm]
  have := List.card_nsmul_le_sum pt (minOr0 pt) (fun x hx => minOr0_le x hx)
  simpa [nsmul_eq_mul] using this

theorem avgOr0_le_max {pt : List Rat} (h : pt ≠ []) : avgOr0 pt ≤ maxOr0 pt := by
  have hlen : 0 < pt.length := List.length_pos.mpr h
  have hlenq : (0 : Rat) < (pt.length : Rat) := by exact_mod_cast hlen
  rw [avgOr0, if_neg (by simp [h])]
  rw [div_le_iff₀ hlenq, mul_comm]
  have := List.sum_le_card_nsmul pt (maxOr0 pt) (fun x hx => maxOr0_ge x hx)
  simpa [nsmul_eq_mul] using this

theorem countP_le_countP {α : Type} (p q : α → Bool) :
    ∀ l : List α, (∀ a ∈ l, p a = true → q a = true) → l.countP p ≤ l.countP q
  | [], _ => le_refl _
  | a :: l, h => by
    rw [List.countP_cons, List.countP_cons]
    have hl := countP_le_countP p q l (fun x hx => h x (List.mem_cons_of_mem a hx))
    by_cases hp : p a = true
    · rw [if_pos hp, if_pos (h a (List.mem_cons_self a l) hp)]
      exact Nat.add_le_add_right hl 1
    · rw [if_neg hp, Nat.add_zero]
      exact le_trans hl (Nat.le_add_right _ _)

theorem sampleLines_le_rawProbes (lines : List (List Char)) :
    sampleLines lines ≤ rawProbes lines := by
  rw [sampleLines, rawProbes]
  refine countP_le_countP _ _ lines (fun l _ hb => ?_)
  rw [Bool.and_eq_true] at hb
  exact seqSearch_contains hb.1


/-! ### Discovery, collection, and rendering lemmas -/

theorem processArg_files (fs : Fs) (st : DiscoverySt) (a : CliArg) :
    (processArg fs st a).files = st.files ++ argAccepted fs a := by
  cases a with
  | dir name txt log =>
    simp only [processArg, argAccepted]
    split <;> simp [List.append_assoc]
  | globPat name found =>
    simp only [processArg, argAccepted]
    split <;> simp

theorem dictInsert_keys_of_mem {d : List (String × FileAnalysis)} {k : String}
    {v : FileAnalysis} (h : d.any (fun p => p.1 == k) = true) :
    (dictInsert d k v).map Prod.fst = d.map Prod.fst := by
  rw [dictInsert, if_pos h, List.map_map]
  apply List.map_congr_left
  intro p _
  by_cases hk : (p.1 == k) = true
  · simp only [Function.comp_apply, hk, if_pos]
    exact (beq_iff_eq.mp hk).symm
  · have hne : p.1 ≠ k := by simpa using hk
    simp [Function.comp_apply, hne]

theorem dictInsert_keys_of_not_mem {d : List (String × FileAnalysis)} {k : String}
    {v : FileAnalysis} (h : d.any (fun p => p.1 == k) = false) :
    (dictInsert d k v).map Prod.fst = d.map Prod.fst ++ [k] := by
  rw [dictInsert, if_neg (by simp [h]), List.map_append]
  rfl

theorem keys_nodup_dictInsert {d : List (String × FileAnalysis)} {k : String}
    {v : FileAnalysis} (h : (d.map Prod.fst).Nodup) :
    ((dictInsert d k v).map Prod.fst).Nodup := by
  cases ha : d.any (fun p => p.1 == k) with
  | true => rw [dictInsert_keys_of_mem ha]; exact h
  | false =>
    rw [dictInsert_keys_of_not_mem ha, List.nodup_append]
    refine ⟨h, List.nodup_singleton k, ?_⟩
    intro x hx hk
    rw [List.mem_singleton] at hk
    obtain ⟨p, hp, hpx⟩ := List.mem_map.mp hx
    have := List.any_eq_false.mp ha p hp
    rw [hpx, hk] at this
    exact this (beq_self_eq_true k)

theorem collect_keys_nodup (fs : Fs) :
    ∀ (files : List String) (d : List (String × FileAnalysis)),
      (d.map Prod.fst).Nodup →
        ((files.foldl (collectStep fs) d).map Prod.fst).Nodup
  | [], _, h => h
  | f :: fl, d, h => by
    rw [List.foldl_cons]
    refine collect_keys_nodup fs fl _ ?_
    rcases h2 : analyzeFile fs f with _ | r
    · simpa [collectStep, h2] using h
    · have : collectStep fs d f = dictInsert d f r := by rw [collectStep, h2]
      rw [this]
      exact keys_nodup_dictInsert h

theorem sectionCount_mdSection (f : String) (a : FileAnalysis) :
    sectionCount (mdSection f a) = 1 := by
  rcases a with ⟨⟨ip, hn⟩, s, tr, hts⟩
  rcases hn with _ | h <;> rcases tr with _ | ⟨lo, hi⟩ <;> rfl

theorem sectionCount_append (x y : List (List Char)) :
    sectionCount (x ++ y) = sectionCount x + sectionCount y := by
  rw [sectionCount, sectionCount, sectionCount, List.countP_append]

theorem sectionCount_mdRows :
    ∀ d : List (String × FileAnalysis), sectionCount (mdRows d) = d.length
  | [] => rfl
  | p :: d => by
    have he : mdRows (p :: d) = mdSection p.1 p.2 ++ mdRows d := by
      rw [mdRows, List.map_cons, List.flatten_cons, mdRows]
    rw [he, sectionCount_append, sectionCount_mdSection, sectionCount_mdRows d,
      List.length_cons]
    omega

/-! ## Claim theorems -/

/-- C3: for every analyzed file, `packetLossPercent` equals 0 when the raw
probe counter is 0, and otherwise equals
`(rawProbeCounter - sampleCount) / rawProbeCounter * 100`, where the raw probe
counter counts lines containing the substring `icmp_seq=` and the sample count
counts lines from which both a sequence number and a time value were parsed. -/
theorem packet_loss_formula (lines : List (List Char)) :
    (rawProbes lines = 0 → (analyze_ping_file lines).stats.packet_loss = 0) ∧
    (rawProbes lines ≠ 0 →
      (analyze_ping_file lines).stats.packet_loss =
        ((rawProbes lines : Rat) - (sampleLines lines : Rat))
          / (rawProbes lines : Rat) * 100) := by
  constructor
  · intro h
    rw [analyze_loss, h]
    simp
  · intro h
    rw [analyze_loss, if_pos (Nat.pos_of_ne_zero h)]

/-- Witness for C3 at a concrete three-line input with one lost probe. -/
theorem packet_loss_formula_witness :
    (analyze_ping_file exLossLines).stats.packet_loss =
      ((rawProbes exLossLines : Rat) - (sampleLines exLossLines : Rat))
        / (rawProbes exLossLines : Rat) * 100 :=
  (packet_loss_formula exLossLines).2 (by decide)

/-- C4: the computed `packetLossPercent` lies in `[0, 100]` whenever
`totalProbes > 0` and is exactly 0 when `totalProbes = 0`; every line with a
parsed sequence number also passes the raw substring test, so the sample
count never exceeds the raw probe counter. -/
theorem packet_loss_bounds (lines : List (List Char)) :
    (0 < (analyze_ping_file lines).stats.total_pings →
      0 ≤ (analyze_ping_file lines).stats.packet_loss ∧
        (analyze_ping_file lines).stats.packet_loss ≤ 100) ∧
    ((analyze_ping_file lines).stats.total_pings = 0 →
      (analyze_ping_file lines).stats.packet_loss = 0) ∧
    (∀ l : List Char, (seqSearch l).isSome = true → containsSub icmpPat l = true) ∧
    sampleLines lines ≤ rawProbes lines := by
  refine ⟨?_, ?_, fun l h => seqSearch_contains h, sampleLines_le_rawProbes lines⟩
  · intro hpos
    rw [analyze_total] at hpos
    rw [analyze_loss, if_pos hpos]
    have hr : (0 : Rat) < (rawProbes lines : Rat) := by exact_mod_cast hpos
    have hs : (sampleLines lines : Rat) ≤ (rawProbes lines : Rat) := by
      exact_mod_cast sampleLines_le_rawProbes lines
    have hs0 : (0 : Rat) ≤ (sampleLines lines : Rat) := by positivity
    constructor
    · have : (0 : Rat) ≤ ((rawProbes lines : Rat) - (sampleLines lines : Rat))
          / (rawProbes lines : Rat) := div_nonneg (by linarith) (le_of_lt hr)
      linarith
    · have h1 : ((rawProbes lines : Rat) - (sampleLines lines : Rat))
          / (rawProbes lines : Rat) ≤ 1 := by
        rw [div_le_one hr]
        linarith
      linarith
  · intro h0
    rw [analyze_total] at h0
    rw [analyze_loss, h0]
    simp

/-- Witness for C4 at a concrete input with two raw probes and one sample. -/
theorem packet_loss_bounds_witness :
    0 ≤ (analyze_ping_file exLossLines).stats.packet_loss ∧
      (analyze_ping_file exLossLines).stats.packet_loss ≤ 100 :=
  (packet_loss_bounds exLossLines).1 (by decide)

/-- C5: `minMs`, `maxMs`, `avgMs` and `meanDeviationMs` are all 0 on an empty
sample list; otherwise `minMs`/`maxMs` are the minimum/maximum of the samples,
`avgMs` is their arithmetic mean, and `meanDeviationMs` is the mean of
`|roundTripMs - avgMs|` (mean absolute deviation about the mean). -/
theorem stats_aggregation (lines : List (List Char)) :
    (sampleTimes lines = [] →
      (analyze_ping_file lines).stats.min = 0 ∧
        (analyze_ping_file lines).stats.max = 0 ∧
        (analyze_ping_file lines).stats.avg = 0 ∧
        (analyze_ping_file lines).stats.mdev = 0) ∧
    (sampleTimes lines ≠ [] →
      ((analyze_ping_file lines).stats.min ∈ sampleTimes lines ∧
        ∀ x ∈ sampleTimes lines, (analyze_ping_file lines).stats.min ≤ x) ∧
      ((analyze_ping_file lines).stats.max ∈ sampleTimes lines ∧
        ∀ x ∈ sampleTimes lines, x ≤ (analyze_ping_file lines).stats.max) ∧
      (analyze_ping_file lines).stats.avg =
        (sampleTimes lines).sum / ((sampleTimes lines).length : Rat) ∧
      (analyze_ping_file lines).stats.mdev =
        ((sampleTimes lines).map
          (fun t => |t - (analyze_ping_file lines).stats.avg|)).sum
          / ((sampleTimes lines).length : Rat)) := by
  constructor
  · intro h
    rw [analyze_min, analyze_max, analyze_avg, analyze_mdev, h]
    simp [minOr0, maxOr0, avgOr0]
  · intro h
    refine ⟨⟨?_, ?_⟩, ⟨?_, ?_⟩, ?_, ?_⟩
    · rw [analyze_min]; exact minOr0_mem h
    · intro x hx; rw [analyze_min]; exact minOr0_le x hx
    · rw [analyze_max]; exact maxOr0_mem h
    · intro x hx; rw [analyze_max]; exact maxOr0_ge x hx
    · rw [analyze_avg, avgOr0, if_neg (by simp [h])]
    · rw [analyze_mdev, if_neg (by simp [h]), analyze_avg]

/-- Witness for C5 at the two-line example of the spec. -/
theorem stats_aggregation_witness :
    (analyze_ping_file exampleLines).stats.min ∈ sampleTimes exampleLines :=
  ((stats_aggregation exampleLines).2 (by decide)).1.1

/-- C6: for every non-empty parsed sample list,
`minMs ≤ avgMs ≤ maxMs`. -/
theorem min_le_avg_le_max (lines : List (List Char))
    (h : sampleTimes lines ≠ []) :
    (analyze_ping_file lines).stats.min ≤ (analyze_ping_file lines).stats.avg ∧
      (analyze_ping_file lines).stats.avg ≤ (analyze_ping_file lines).stats.max := by
  rw [analyze_min, analyze_avg, analyze_max]
  exact ⟨min_le_avgOr0 h, avgOr0_le_max h⟩

/-- Witness for C6 at the two-line example of the spec. -/
theorem min_le_avg_le_max_witness :
    (analyze_ping_file exampleLines).stats.min
        ≤ (analyze_ping_file exampleLines).stats.avg ∧
      (analyze_ping_file exampleLines).stats.avg
        ≤ (analyze_ping_file exampleLines).stats.max :=
  min_le_avg_le_max exampleLines (by decide)

/-- C7: target identity comes from the first line only, via the header
pattern (parenthesized second token present: token1 hostname, token2 ip;
otherwise token1 alone is the ip); on the two-line example of the spec the
analysis yields exactly the expected target, sample, and statistics. -/
theorem header_extraction_example :
    (∀ (l : List Char) (rest : List (List Char)),
      (analyze_ping_file (l :: rest)).target = (analyze_ping_file [l]).target) ∧
    (∀ (l t1 t2 : List Char), headerSearch l = some (t1, some t2) →
      parseTarget [l] = { ip := ⟨stripParens t2⟩, hostname := some ⟨t1⟩ }) ∧
    (∀ (l t1 : List Char), headerSearch l = some (t1, none) →
      parseTarget [l] = { ip := ⟨t1⟩, hostname := none }) ∧
    (analyze_ping_file exampleLines).target
        = { ip := "93.184.216.34", hostname := some "example.com" } ∧
    (scanOf exampleLines).sequences = [1] ∧
    sampleTimes exampleLines = [56 / 5] ∧
    (analyze_ping_file exampleLines).stats.total_pings = 1 ∧
    (analyze_ping_file exampleLines).stats.packet_loss = 0 ∧
    (analyze_ping_file exampleLines).stats.min = 56 / 5 ∧
    (analyze_ping_file exampleLines).stats.max = 56 / 5 ∧
    (analyze_ping_file exampleLines).stats.avg = 56 / 5 ∧
    (analyze_ping_file exampleLines).stats.mdev = 0 ∧
    (analyze_ping_file exampleLines).time_range = none ∧
    (analyze_ping_file exampleLines).has_timestamps = false := by
  have hval : ratOfParts ['1', '1'] ['2'] = 56 / 5 := by
    have h1 : digitsToNat ['1', '1'] = 11 := by decide
    have h2 : digitsToNat ['2'] = 2 := by decide
    rw [ratOfParts, h1, h2]
    norm_num
  have hscan : scanOf exampleLines =
      { ping_times := [ratOfParts ['1', '1'] ['2']], timestamps := [],
        sequences := [1], total_pings := 1 } := rfl
  have hpt : sampleTimes exampleLines = [56 / 5] := by
    rw [sampleTimes, hscan, hval]
  refine ⟨fun l rest => rfl, fun l t1 t2 h => ?_, fun l t1 h => ?_,
    by decide, by rw [hscan], hpt, by decide, ?_, ?_, ?_, ?_, ?_, ?_, by decide⟩
  · simp [parseTarget, h]
  · simp [parseTarget, h]
  · rw [analyze_loss]
    have hr : rawProbes exampleLines = 1 := by decide
    have hs : sampleLines exampleLines = 1 := by decide
    rw [hr, hs, if_pos Nat.one_pos]
    norm_num
  · rw [analyze_min, hpt]
    simp [minOr0]
  · rw [analyze_max, hpt]
    simp [maxOr0]
  · rw [analyze_avg, hpt, avgOr0]
    norm_num
  · rw [analyze_mdev, hpt]
    norm_num [avgOr0]
  · rw [analyze_time_range, hscan]

/-- Witness for C7: the header implication at the header line of the example. -/
theorem header_extraction_example_witness :
    parseTarget ["PING example.com (93.184.216.34) 56 data bytes".data] =
      { ip := ⟨stripParens "93.184.216.34".data⟩,
        hostname := some ⟨"example.com".data⟩ } :=
  header_extraction_example.2.1 "PING example.com (93.184.216.34) 56 data bytes".data
    "example.com".data "93.184.216.34".data (by decide)

/-- C8: an empty (zero-line) readable file analyzes to the `Unknown` target,
all-zero statistics, no time range, and `hasTimestamps = false`. -/
theorem empty_file_defaults :
    analyze_ping_file [] =
      { target := { ip := "Unknown", hostname := none },
        stats := { min := 0, max := 0, avg := 0, mdev := 0,
                   total_pings := 0, packet_loss := 0 },
        time_range := none, has_timestamps := false } := by
  decide

/-- C10: `timeRange` is present exactly when `hasTimestamps` is true; when
present it is the pair (minimum, maximum) of the collected timestamps, and
when no non-blank line matches the timestamp pattern it is absent. -/
theorem time_range_iff (lines : List (List Char)) :
    ((analyze_ping_file lines).time_range.isSome
        = (analyze_ping_file lines).has_timestamps) ∧
    ((analyze_ping_file lines).has_timestamps = false →
      (analyze_ping_file lines).time_range = none) ∧
    ((analyze_ping_file lines).has_timestamps = true →
      collectedTs lines ≠ [] ∧
      ∃ lo hi, (analyze_ping_file lines).time_range = some (lo, hi) ∧
        lo ∈ collectedTs lines ∧ hi ∈ collectedTs lines ∧
        ∀ x ∈ collectedTs lines, lo ≤ x ∧ x ≤ hi) := by
  have hne : htsOf lines = true → collectedTs lines ≠ [] := by
    intro h hnil
    obtain ⟨l, hl, hp⟩ := List.any_eq_true.mp h
    rw [Bool.and_eq_true] at hp
    have h0 : tsOf l = none := List.filterMap_eq_nil_iff.mp hnil l hl
    have hb : isBlank l = false := by simpa using hp.1
    rw [tsOf, if_neg (by simp [hb])] at h0
    rw [h0] at hp
    exact absurd hp.2 (by simp)
  by_cases h : htsOf lines = true
  · obtain ⟨t, ts, he⟩ : ∃ t ts, collectedTs lines = t :: ts := by
      rcases hc : collectedTs lines with _ | ⟨t, ts⟩
      · exact absurd hc (hne h)
      · exact ⟨t, ts, rfl⟩
    have htimes : (scanOf lines).timestamps = t :: ts := by
      rw [scanOf_ts, if_pos h, he]
    have htr : (analyze_ping_file lines).time_range
        = some (ts.foldl min t, ts.foldl max t) := by
      rw [analyze_time_range, htimes]
    refine ⟨?_, ?_, ?_⟩
    · rw [htr, analyze_hts, h]; rfl
    · intro hf; rw [analyze_hts, h] at hf; cases hf
    · intro _
      refine ⟨hne h, ts.foldl min t, ts.foldl max t, htr, ?_, ?_, ?_⟩
      · rw [he]; exact foldl_min_mem ts t
      · rw [he]; exact foldl_max_mem ts t
      · intro x hx
        rw [he] at hx
        exact ⟨foldl_min_le ts t x hx, foldl_max_ge ts t x hx⟩
  · have hf : htsOf lines = false := Bool.eq_false_iff.mpr h
    have htimes : (scanOf lines).timestamps = [] := by
      rw [scanOf_ts, hf]
      rfl
    have htr : (analyze_ping_file lines).time_range = none := by
      rw [analyze_time_range, htimes]
    refine ⟨?_, fun _ => htr, ?_⟩
    · rw [htr, analyze_hts, hf]; rfl
    · intro hcontra
      rw [analyze_hts, hf] at hcontra
      cases hcontra

/-- Witness for C10 at a timestamped three-line input. -/
theorem time_range_iff_witness :
    collectedTs exTsLines ≠ [] ∧
      ∃ lo hi, (analyze_ping_file exTsLines).time_range = some (lo, hi) ∧
        lo ∈ collectedTs exTsLines ∧ hi ∈ collectedTs exTsLines ∧
        ∀ x ∈ collectedTs exTsLines, lo ≤ x ∧ x ≤ hi :=
  (time_range_iff exTsLines).2.2 (by decide)

/-- Counterexample to C1: the file `a.txt`, matched by two argument patterns,
occurs twice in the discovered candidate list, yet the rendered report of the
run contains one section, not one per occurrence: the results dict is keyed
by filename. -/
theorem report_sections_counterexample :
    (discover exFs [.globPat "a.txt" ["a.txt"], .globPat "*.txt" ["a.txt"]] [] []).files
        = ["a.txt", "a.txt"] ∧
      sectionCount (mdRows (collectResults exFs
        (discover exFs [.globPat "a.txt" ["a.txt"], .globPat "*.txt" ["a.txt"]] [] []).files))
        = 1 := by
  exact ⟨rfl, rfl⟩

/-- C1 amended: every occurrence is kept as found in the candidate list (each
argument appends its accepted matches, with no de-duplication), but the
collected results are keyed by filename — their keys are duplicate-free — and
the rendered report contains exactly one section per stored result, i.e. one
per distinct filename that produced an analysis. -/
theorem report_one_section_per_distinct_file (fs1 fs2 : Fs) (st : DiscoverySt)
    (a : CliArg) (files : List String) :
    (processArg fs1 st a).files = st.files ++ argAccepted fs1 a ∧
      ((collectResults fs2 files).map Prod.fst).Nodup ∧
      sectionCount (mdRows (collectResults fs2 files))
        = (collectResults fs2 files).length :=
  ⟨processArg_files fs1 st a,
   collect_keys_nodup fs2 files [] List.nodup_nil,
   sectionCount_mdRows (collectResults fs2 files)⟩

/-- Counterexample to C2: the directory argument `d` yields zero accepted
files, but because the earlier pattern argument already contributed a file,
the run emits no warning at all (the script guards the warning with the
cumulative `if not files`). -/
theorem dir_warning_counterexample :
    argAccepted exFs (.dir "d" [] []) = [] ∧
      (discover exFs [.globPat "a.txt" ["a.txt"], .dir "d" [] []] [] []).warnings = [] := by
  exact ⟨rfl, rfl⟩

/-- C2 amended: processing a directory argument emits the non-fatal directory
warning exactly when the CUMULATIVE candidate list is still empty after this
contributions of this argument; in particular, when earlier arguments already
contributed files, a zero-yield directory emits no warning. -/
theorem dir_warning_cumulative (fs : Fs) (st : DiscoverySt) (name : String)
    (txt log : List String) :
    ((processArg fs st (.dir name txt log)).warnings =
      (if (st.files ++ argAccepted fs (.dir name txt log)).isEmpty
       then st.warnings ++ [dirWarning name] else st.warnings)) ∧
    (st.files ≠ [] →
      (processArg fs st (.dir name txt log)).warnings = st.warnings) := by
  have hassoc : st.files ++ txt.filter (is_ping_file fs) ++ log.filter (is_ping_file fs)
      = st.files ++ argAccepted fs (.dir name txt log) := by
    rw [argAccepted, List.append_assoc]
  have hw : (processArg fs st (.dir name txt log)).warnings =
      (if (st.files ++ argAccepted fs (.dir name txt log)).isEmpty
       then st.warnings ++ [dirWarning name] else st.warnings) := by
    simp only [processArg]
    rw [hassoc]
    split <;> rfl
  refine ⟨hw, fun hne => ?_⟩
  rw [hw, if_neg ?_]
  intro hcontra
  rw [List.isEmpty_iff, List.append_eq_nil] at hcontra
  exact hne hcontra.1

/-- Witness for the amended claim of C2: a zero-yield directory after a
contributing argument leaves the warning list unchanged. -/
theorem dir_warning_cumulative_witness :
    (processArg exFs { files := ["a.txt"], warnings := [] }
      (.dir "d" [] [])).warnings = [] :=
  (dir_warning_cumulative exFs { files := ["a.txt"], warnings := [] }
    "d" [] []).2 (by decide)

/-- C9: the run exits 1 exactly when discovery found no candidates or no
candidate yielded a usable analysis; standard output is empty exactly on a
fatal exit, a fatal diagnostic goes to the error stream, and a successful
exit prints the rendered report. -/
theorem exit_status_behavior (fs1 fs2 : Fs) (argv : List CliArg)
    (defTxt defLog : List String) :
    ((main fs1 fs2 argv defTxt defLog).exitCode = 1 ↔
      ((discover fs1 argv defTxt defLog).files = [] ∨
        collectResults fs2 (discover fs1 argv defTxt defLog).files = [])) ∧
    ((main fs1 fs2 argv defTxt defLog).stdout = none ↔
      (main fs1 fs2 argv defTxt defLog).exitCode = 1) ∧
    ((main fs1 fs2 argv defTxt defLog).exitCode = 1 →
      noFilesMsg ∈ (main fs1 fs2 argv defTxt defLog).stderrs ∨
        noDataMsg ∈ (main fs1 fs2 argv defTxt defLog).stderrs) ∧
    ((main fs1 fs2 argv defTxt defLog).exitCode = 0 →
      (main fs1 fs2 argv defTxt defLog).stdout =
        some (generate_markdown
          (collectResults fs2 (discover fs1 argv defTxt defLog).files))) := by
  by_cases h1 : (discover fs1 argv defTxt defLog).files.isEmpty = true
  · have hm : main fs1 fs2 argv defTxt defLog =
        { exitCode := 1, stdout := none,
          stderrs := (discover fs1 argv defTxt defLog).warnings ++ [noFilesMsg] } := by
      rw [main, if_pos h1]
    have hfe : (discover fs1 argv defTxt defLog).files = [] := List.isEmpty_iff.mp h1
    refine ⟨?_, ?_, ?_, ?_⟩
    · simp [hm, hfe]
    · simp [hm]
    · intro _
      left
      simp [hm]
    · intro hc
      rw [hm] at hc
      cases hc
  · have hne : (discover fs1 argv defTxt defLog).files ≠ [] := by
      intro hc
      rw [List.isEmpty_iff] at h1
      exact h1 hc
    by_cases h2 : (collectResults fs2 (discover fs1 argv defTxt defLog).files).isEmpty = true
    · have hm : main fs1 fs2 argv defTxt defLog =
          { exitCode := 1, stdout := none,
            stderrs := (discover fs1 argv defTxt defLog).warnings
              ++ readErrors fs2 (discover fs1 argv defTxt defLog).files ++ [noDataMsg] } := by
        rw [main, if_neg (by simp [h1]), if_pos h2]
      have hre : collectResults fs2 (discover fs1 argv defTxt defLog).files = [] :=
        List.isEmpty_iff.mp h2
      refine ⟨?_, ?_, ?_, ?_⟩
      · simp [hm, hre]
      · simp [hm]
      · intro _
        right
        simp [hm]
      · intro hc
        rw [hm] at hc
        cases hc
    · have hrne : collectResults fs2 (discover fs1 argv defTxt defLog).files ≠ [] := by
        intro hc
        rw [List.isEmpty_iff] at h2
        exact h2 hc
      have hm : main fs1 fs2 argv defTxt defLog =
          { exitCode := 0,
            stdout := some (generate_markdown
              (collectResults fs2 (discover fs1 argv defTxt defLog).files)),
            stderrs := (discover fs1 argv defTxt defLog).warnings
              ++ readErrors fs2 (discover fs1 argv defTxt defLog).files } := by
        rw [main, if_neg (by simp [h1]), if_neg (by simp [h2])]
      refine ⟨?_, ?_, ?_, ?_⟩
      · simp [hm, hne, hrne]
      · simp [hm]
      · intro hc
        rw [hm] at hc
        cases hc
      · intro _
        simp [hm]

/-- Witness for C9: a run with no discovered candidates leaves a fatal
diagnostic on the error stream. -/
theorem exit_status_behavior_witness :
    noFilesMsg ∈ (main emptyFs emptyFs [] [] []).stderrs ∨
      noDataMsg ∈ (main emptyFs emptyFs [] [] []).stderrs :=
  (exit_status_behavior emptyFs emptyFs [] [] []).2.2.1 (by rfl)

end PingTool
